import Mathlib

/-!
Verification of the `phyluce` generic alignment-trimming engine
(`phyluce/generic_align.py`).

The Python code is shallowly embedded below.  Rows are lists of characters,
an alignment is a list of rows, and floating-point running averages are
modelled exactly over the rationals.  Python-level failures that the source
can raise (`TypeError` on `len(None)`, `AttributeError` when the BioPython
summary object is built over `None`, `IndexError` on `most_common` of an
empty counter, `UnboundLocalError` on the `bad_start` / `bad_end` locals,
`ValueError` when `numpy.convolve` receives an empty array) are made
explicit through an error monad, so that theorems can speak about which
inputs raise and which return a value.
-/

deriving instance DecidableEq for Except

namespace Phyluce

/-- Python exceptions that can escape from the trimming routines. -/
inductive PyError where
  | typeError
  | attributeError
  | indexError
  | unboundLocal
  | valueError
deriving DecidableEq, Repr

/-- One aligned sequence: a taxon label (`SeqRecord.id`) and its characters. -/
structure Row where
  id : String
  seq : List Char
deriving DecidableEq, Repr

/-- An alignment is an ordered list of rows (a `MultipleSeqAlignment`). -/
abbrev Alignment := List Row

/-- Python slice `l[a:b]` for nonnegative bounds (clamps at both ends). -/
def pySlice (l : List Char) (a b : ℕ) : List Char :=
  (l.drop a).take (b - a)

/-- `MultipleSeqAlignment.get_alignment_length`: the maximum row length. -/
def alignment_length (aln : Alignment) : ℕ :=
  (aln.map (fun r => r.seq.length)).foldr max 0

/-- Column `j` of the alignment (`alignment[:, j]`); rows shorter than `j`
contribute nothing, matching the `n < len(record.seq)` guard used by the
BioPython consensus (rows of a valid alignment all have the full width). -/
def column (aln : Alignment) (j : ℕ) : List Char :=
  aln.filterMap (fun r => r.seq.get? j)

/-- Python 2 `round`: half away from zero, `⌊q + 1/2⌋` for nonnegative `q`.
`q + 1/2` is written as the quotient `(2 num + den) / (2 den)` so that the
kernel can evaluate the definition; `pythonRound_nonneg` states the
idiomatic form. -/
def pythonRound (q : ℚ) : ℤ :=
  if 0 ≤ q then Rat.floor (Rat.divInt (2 * q.num + (q.den : ℤ)) (2 * (q.den : ℤ)))
  else -Rat.floor (Rat.divInt (-(2 * q.num) + (q.den : ℤ)) (2 * (q.den : ℤ)))

/-- `int(round(proportion * taxa, 0))` from `running_average`; the product
`proportion * taxa` is written as the quotient `(num * taxa) / den`
(see `majority_eq`). -/
def majority (prop : ℚ) (taxa : ℕ) : ℕ :=
  (pythonRound (Rat.divInt (prop.num * (taxa : ℤ)) (prop.den : ℤ))).toNat

/-- `Counter(column).most_common(1)[0][1]` after `del counter['-']`:
the count of the most frequent element, or `none` when the list is empty
(in which case the Python expression raises `IndexError`). -/
def mostCommonCount (l : List Char) : Option ℕ :=
  match l with
  | [] => none
  | _ :: _ => some ((l.dedup.map (fun c => l.count c)).foldr max 0)

/-- Column scoring from `running_average` (`generic_align.py:106-126`):
a column is good when gaps do not outnumber `majority` and the most common
remaining character (`'?'` included) reaches `majority`.  A column of only
gaps that passes the gap test raises `IndexError` on the empty counter. -/
def classifyColumn (col : List Char) (maj : ℕ) : Except PyError Bool :=
  if col.count '-' ≤ maj then
    match mostCommonCount (col.filter (fun c => c ≠ '-')) with
    | none => Except.error PyError.indexError
    | some m => Except.ok (decide (maj ≤ m))
  else
    Except.ok false

/-- Number of `true` entries of `a` inside the centred window of width `M`
that `numpy.convolve(..., "same")` places over output position `i`: the
window covers the indices `[i + off + 1 - M, i + off + 1)` clipped to `a`,
where `off = (min a.length M - 1) / 2`. -/
def windowCount (a : List Bool) (M i : ℕ) : ℕ :=
  ((a.drop (i + (min a.length M - 1) / 2 + 1 - M)).take
    (min a.length (i + (min a.length M - 1) / 2 + 1) -
      (i + (min a.length M - 1) / 2 + 1 - M))).count true

/-- `numpy.convolve(a, numpy.repeat(1.0, M) / M, "same")` for a 0/1 input:
entry `i` of the centred, zero-padded running average.  The output has
`max a.length M` entries; entry `i` is the number of set entries inside the
window divided by the full window size `M` (the zero padding). -/
def convSameAvg (a : List Bool) (M : ℕ) : List ℚ :=
  (List.range (max a.length M)).map (fun i =>
    Rat.divInt (windowCount a M i : ℤ) (M : ℤ))

/-- First index `j` in `[i, i + fuel)` with `p j = true` (the Python
`for i in xrange(n): if ...: break` scan). -/
def firstFrom (p : ℕ → Bool) : ℕ → ℕ → Option ℕ
  | _, 0 => none
  | i, fuel + 1 => if p i then some i else firstFrom p (i + 1) fuel

/-- Last index `j < n` with `p j = true` (`numpy.where(...)[0][-1]`). -/
def lastFrom (p : ℕ → Bool) : ℕ → Option ℕ
  | 0 => none
  | i + 1 => if p i then some i else lastFrom p i

/-- `GenericAlign.running_average` (`generic_align.py:90-142`): classify the
columns, smooth with the zero-padded centred moving average, and return the
first and last index whose average reaches `thr`, or `none` when no index
qualifies.  An empty score list makes `numpy.convolve` raise `ValueError`. -/
def running_average (aln : Alignment) (ws : ℕ) (thr prop : ℚ) :
    Except PyError (Option (ℕ × ℕ)) :=
  match (List.range (alignment_length aln)).mapM
      (fun j => classifyColumn (column aln j) (majority prop aln.length)) with
  | Except.error e => Except.error e
  | Except.ok scores =>
    if scores.isEmpty then Except.error PyError.valueError
    else
      match firstFrom (fun i => decide (thr ≤ (convSameAvg scores ws).getD i 0)) 0
          (convSameAvg scores ws).length,
        lastFrom (fun i => decide (thr ≤ (convSameAvg scores ws).getD i 0))
          (convSameAvg scores ws).length with
      | some s, some e => Except.ok (some (s, e))
      | _, _ => Except.ok none

/-- `set(trim) == set(['-'])`: the row is nonempty and entirely gaps.  The
source also tests `set(trim) != (['?'])`, but a `set` never equals a `list`,
so that conjunct is always true and a row of `'?'` characters passes. -/
def isAllGapRow (s : List Char) : Bool :=
  !s.isEmpty && s.all (fun c => c == '-')

/-- `GenericAlign.stage_one_trimming` (`generic_align.py:144-168`).  Passing
`None` (a failed earlier stage) raises `TypeError` at `len(alignment)`.
With a scan result, each row is clipped to `[s:e]`; the loop yields `None`
when the scan failed, when `e` is falsy (index 0), or when some clipped row
is entirely gaps. -/
def stage_one_trimming : Option Alignment → ℕ → ℚ → ℚ →
    Except PyError (Option Alignment)
  | none, _, _, _ => Except.error PyError.typeError
  | some aln, ws, thr, prop =>
    match running_average aln ws thr prop with
    | Except.error e => Except.error e
    | Except.ok none => Except.ok none
    | Except.ok (some (s, e)) =>
      if e = 0 then Except.ok none
      else if (aln.map (fun q => ({ id := q.id, seq := pySlice q.seq s e } : Row))).any
          (fun q => isAllGapRow q.seq) then Except.ok none
      else Except.ok (some (aln.map
        (fun q => ({ id := q.id, seq := pySlice q.seq s e } : Row))))

/-- Characters that BioPython's `dumb_consensus` tallies: everything except
the gap markers `'-'` and `'.'`.  The missing-data marker `'?'` is tallied
like a base. -/
def isAtom (c : Char) : Bool :=
  c != '-' && c != '.'

/-- One column of `AlignInfo.SummaryInfo.dumb_consensus` with its default
threshold 0.7 and ambiguous character `'X'` (the exact library routine the
source calls at `generic_align.py:76`): tally the non-gap characters, and
emit the strictly most frequent one when it is unique and reaches 0.7 of
the number of tallied (non-gap) characters; otherwise emit `'X'`.  A tie
for the maximum yields `'X'` whatever the tallying order, so the routine
does not depend on Python dictionary iteration order. -/
def consensusChar (col : List Char) : Char :=
  match (col.filter isAtom).dedup.filter (fun c => (col.filter isAtom).count c ==
      ((col.filter isAtom).dedup.map
        (fun c => (col.filter isAtom).count c)).foldr max 0) with
  | [c] =>
    if 7 * (col.filter isAtom).length ≤
        10 * ((col.filter isAtom).dedup.map
          (fun c => (col.filter isAtom).count c)).foldr max 0
    then c else 'X'
  | _ => 'X'

/-- `dumb_consensus` over all columns of the alignment. -/
def dumb_consensus (aln : Alignment) : List Char :=
  (List.range (alignment_length aln)).map (fun n => consensusChar (column aln n))

/-- `GenericAlign._alignment_consensus` (`generic_align.py:74-77`):
the BioPython consensus with `'X'` replaced by `'-'`. -/
def alignment_consensus (aln : Alignment) : List Char :=
  (dumb_consensus aln).map (fun c => if c = 'X' then '-' else c)

/-- `GenericAlign._get_ends` (`generic_align.py:45-59`): length of the
leading run of `'-'`, and the row length minus the trailing run of `'-'`. -/
def get_ends (s : List Char) : ℕ × ℕ :=
  ((s.takeWhile (fun c => c == '-')).length,
   s.length - (s.reverse.takeWhile (fun c => c == '-')).length)

/-- `seq_array == consensus_array[start:end]` from `stage_two_trimming`
(`generic_align.py:192-193`): exact elementwise character equality of the
row and the consensus over the row's own `[start, end)` span. -/
def matchSeq (cons s : List Char) : List Bool :=
  let e := get_ends s
  List.zipWith (fun a b => a == b) (pySlice s e.1 e.2) (pySlice cons e.1 e.2)

/-- `numpy.all(gm[i:i+5] == True)`: the slice `gm[i:i+5]` holds the entries
at indices `i ≤ j < min (i+5) gm.length` (Python slices clamp), and the
test asks that all of them be true. -/
def windowAll (gm : List Bool) (i : ℕ) : Bool :=
  (List.range' i (min (i + 5) gm.length - i)).all (fun j => gm.getD j false)

/-- The `for i in xrange(gm.size): if numpy.all(gm[i:i+5] == True): break`
scan: first index whose 5-wide slice is all true. -/
def findWin (gm : List Bool) : Option ℕ :=
  firstFrom (fun i => windowAll gm i) 0 gm.length

/-- The two masking assignments `orig_seq_array[:lo] = '-'` and
`orig_seq_array[hi:] = '-'` (`generic_align.py:213-214`). -/
def maskRow (s : List Char) (lo hi : ℕ) : List Char :=
  s.enum.map (fun p => if p.1 < lo ∨ hi ≤ p.1 then '-' else p.2)

/-- The body of the row loop of `stage_two_trimming`
(`generic_align.py:184-215`) for one row.  `obs` / `obe` model the state of
the Python locals `bad_start` / `bad_end` before this iteration: when the
window scans find nothing, the loop falls through with the locals
unchanged, so a previous row's value is silently reused, and if no previous
row ever set them the masking line raises `UnboundLocalError`.  An empty
comparison span (an all-gap row) makes `numpy.convolve` raise `ValueError`.
Returns the masked characters and the `bad_start` / `bad_end` values used. -/
def rowTrim (cons : List Char) (ws : ℕ) (r : Row) (obs obe : Option ℕ) :
    Except PyError (List Char × ℕ × ℕ) :=
  if (matchSeq cons r.seq).isEmpty then Except.error PyError.valueError
  else
    match (findWin ((convSameAvg (matchSeq cons r.seq) ws).map
        (fun q => decide (Rat.divInt 99 100 < q)))).orElse (fun _ => obs),
      ((findWin ((convSameAvg (matchSeq cons r.seq) ws).map
          (fun q => decide (Rat.divInt 99 100 < q))).reverse).map
        (fun i => ((convSameAvg (matchSeq cons r.seq) ws).map
          (fun q => decide (Rat.divInt 99 100 < q))).reverse.length - i)).orElse
      (fun _ => obe) with
    | some bs, some be =>
      Except.ok (maskRow r.seq ((get_ends r.seq).1 + bs) ((get_ends r.seq).1 + be), bs, be)
    | _, _ => Except.error PyError.unboundLocal

/-- The row loop of `stage_two_trimming`: thread the `bad_start` /
`bad_end` locals across rows, drop the whole alignment (`None`) when a
masked row comes out entirely gapped (the `set(trim) != (['?'])` conjunct
of the source being vacuously true, an all-`'?'` row is kept), and collect
the surviving rows with their original ids (`_record_formatter`). -/
def stage_two_go (cons : List Char) (ws : ℕ) :
    List Row → Option ℕ → Option ℕ → List Row →
    Except PyError (Option (List Row))
  | [], _, _, acc => Except.ok (some acc)
  | r :: rest, obs, obe, acc =>
    match rowTrim cons ws r obs obe with
    | Except.error e => Except.error e
    | Except.ok (trim, bs, be) =>
      if isAllGapRow trim then Except.ok none
      else stage_two_go cons ws rest (some bs) (some be)
        (acc ++ [{ id := r.id, seq := trim }])

/-- `GenericAlign.stage_two_trimming` (`generic_align.py:170-225`).  Passing
`None` (a failed stage one) raises `AttributeError` when the BioPython
summary object is asked for the consensus of `None`. -/
def stage_two_trimming : Option Alignment → ℕ → Except PyError (Option Alignment)
  | none, _ => Except.error PyError.attributeError
  | some aln, ws => stage_two_go (alignment_consensus aln) ws aln none none []

/-- `GenericAlign.trim_alignment` (`generic_align.py:227-244`) with the
default `method="running"`: stage one, stage two on its result, stage one
again.  The source never checks a stage's result for `None` before passing
it on, so a failed stage reaches the next stage as `None`. -/
def trim_alignment (aln : Alignment) (ws : ℕ) (thr prop : ℚ) :
    Except PyError (Option Alignment) :=
  match stage_one_trimming (some aln) ws thr prop with
  | Except.error e => Except.error e
  | Except.ok s1 =>
    match stage_two_trimming s1 5 with
    | Except.error e => Except.error e
    | Except.ok s2 => stage_one_trimming s2 ws thr prop

/-! ## Definitions following the specification's words

The next definitions are not translations of the source: they transcribe
what the specification's claims say the code does, and are only used to
compare the two. -/

/-- Follows the claim text for the consensus (spec section 4.1): tally the
case-normalised characters of a column, gap marker excluded from the winner
tally but counted toward the total (the winner's frequency is measured as a
fraction of the row count), break ties by first-encounter order, and emit
the gap marker when the winner's frequency is below 0.7. -/
def specClaimConsensusChar (rowCount : ℕ) (col : List Char) : Char :=
  let norm := (col.filter (fun c => c != '-')).map Char.toUpper
  match norm.dedup with
  | [] => '-'
  | c0 :: rest =>
    let winner := rest.foldl
      (fun best c => if norm.count best < norm.count c then c else best) c0
    if 7 * rowCount ≤ 10 * norm.count winner then winner else '-'

/-- The claim's consensus over all columns. -/
def specClaimConsensus (aln : Alignment) : List Char :=
  (List.range (alignment_length aln)).map
    (fun n => specClaimConsensusChar aln.length (column aln n))

/-- Follows the claim text for the stage-2 match sequence: case-insensitive
equality of the row and the consensus over `[rowStart, rowEnd)`. -/
def matchSeqCI (cons s : List Char) : List Bool :=
  let e := get_ends s
  List.zipWith (fun a b => a.toUpper == b.toUpper)
    (pySlice s e.1 e.2) (pySlice cons e.1 e.2)

/-- Follows the claim text for the stage-1 column classification (spec
section 4.2 step 2): BAD when gaps exceed `maj`, else GOOD iff the most
frequent non-gap character's count reaches `maj`. -/
def specColumnGood (col : List Char) (maj : ℕ) : Bool :=
  decide (col.count '-' ≤ maj) &&
    (col.dedup.filter (fun c => c != '-')).any (fun c => decide (maj ≤ col.count c))

/-- Follows the claim text of C5: some column's zero-padded centred moving
average of the GOOD/BAD scores reaches `thr`. -/
def specSomeColumnQualifies (aln : Alignment) (ws : ℕ) (thr prop : ℚ) : Bool :=
  let maj := majority prop aln.length
  let scores := (List.range (alignment_length aln)).map
    (fun j => specColumnGood (column aln j) maj)
  let A := convSameAvg scores ws
  (List.range A.length).any (fun i => decide (thr ≤ A.getD i 0))

/-! ## Concrete alignments used as inputs of the witnesses,
counterexamples and failing-input theorems -/

/-- Builds a row from a label and a string of characters. -/
def mkRow (i : String) (s : String) : Row :=
  { id := i, seq := s.toList }

/-- Four 20-wide rows that agree nowhere: every column scores BAD, so the
stage-1 scan of `trim_alignment` finds no qualifying column. -/
def exNoGood : Alignment :=
  [mkRow "a" "AAAAAAAAAAAAAAAAAAAA", mkRow "b" "CCCCCCCCCCCCCCCCCCCC",
   mkRow "c" "GGGGGGGGGGGGGGGGGGGG", mkRow "d" "TTTTTTTTTTTTTTTTTTTT"]

/-- Three all-`'A'` rows and one all-`'?'` row, 24 columns. -/
def exMissingRow : Alignment :=
  [mkRow "a" "AAAAAAAAAAAAAAAAAAAAAAAA", mkRow "b" "AAAAAAAAAAAAAAAAAAAAAAAA",
   mkRow "c" "AAAAAAAAAAAAAAAAAAAAAAAA", mkRow "d" "????????????????????????"]

/-- First row disagrees with the consensus of the other three at every
column, so its match sequence has no conserved window at all. -/
def exNoRun : Alignment :=
  [mkRow "a" "TGCATGCA", mkRow "b" "ACGTACGT",
   mkRow "c" "ACGTACGT", mkRow "d" "ACGTACGT"]

/-- Fourth row repeats the others with the last four characters in lower
case. -/
def exLowerTail : Alignment :=
  [mkRow "a" "ACGTACGTACGTACGT", mkRow "b" "ACGTACGTACGTACGT",
   mkRow "c" "ACGTACGTACGTACGT", mkRow "d" "ACGTACGTACGTacgt"]

/-- The fourth row of `exLowerTail`. -/
def rowLowerTail : Row := mkRow "d" "ACGTACGTACGTacgt"

/-- A column with two `'A'` and two gaps. -/
def exHalfGap : Alignment :=
  [mkRow "a" "A", mkRow "b" "A", mkRow "c" "-", mkRow "d" "-"]

/-- A column with two lower-case and one upper-case `'A'` and a gap. -/
def exMixedCase : Alignment :=
  [mkRow "a" "a", mkRow "b" "a", mkRow "c" "A", mkRow "d" "-"]

/-- Two rows whose last column is all gaps while the first two columns
qualify; with `proportion = 1` the gap count does not exceed the majority
count, so the all-gap column reaches the empty-counter tally. -/
def exGapCol : Alignment :=
  [mkRow "a" "AA-", mkRow "b" "AA-"]

/-- A one-column alignment whose single column is all gaps. -/
def exOnlyGaps : Alignment :=
  [mkRow "a" "-", mkRow "b" "-"]

/-- Two identical 10-wide rows: survives all three passes. -/
def exSurvive : Alignment :=
  [mkRow "a" "AAAAAAAAAA", mkRow "b" "AAAAAAAAAA"]

/-- A 10-wide consensus of `'A'` characters. -/
def consA : List Char := "AAAAAAAAAA".toList

/-- A 10-wide row of `'A'` characters. -/
def rowA : Row := mkRow "r" "AAAAAAAAAA"

/-! ## Statement forms used by the amended claims -/

/-- The character `_alignment_consensus` emits for one column: the
`dumb_consensus` character with the ambiguity placeholder `'X'` rendered
as the gap marker. -/
def consensusOut (col : List Char) : Char :=
  if consensusChar col = 'X' then '-' else consensusChar col

/-- What the amended claim C5 asserts about a stage-1 scan that completed
without a Python error and returned `r`: the classification of every column
succeeded, the score list is nonempty, `r` is `none` exactly when no
column's smoothed score reaches `thr`, an `r = some (s, e)` carries the
first and the last qualifying index, and an `r = none` makes the trimming
pass return the drop value `None`. -/
def ScanSpec (aln : Alignment) (ws : ℕ) (thr prop : ℚ) (r : Option (ℕ × ℕ)) : Prop :=
  ∃ scores : List Bool,
    (List.range (alignment_length aln)).mapM
        (fun j => classifyColumn (column aln j) (majority prop aln.length)) =
      Except.ok scores ∧
    scores ≠ [] ∧
    ((r = none ↔ ∀ i, i < (convSameAvg scores ws).length →
        ¬ thr ≤ (convSameAvg scores ws).getD i 0) ∧
     (∀ s e : ℕ, r = some (s, e) →
        (thr ≤ (convSameAvg scores ws).getD s 0 ∧
          ∀ j, j < s → ¬ thr ≤ (convSameAvg scores ws).getD j 0) ∧
        (thr ≤ (convSameAvg scores ws).getD e 0 ∧
          ∀ j, e < j → j < (convSameAvg scores ws).length →
            ¬ thr ≤ (convSameAvg scores ws).getD j 0)) ∧
     (r = none → stage_one_trimming (some aln) ws thr prop = Except.ok none))

/-- `i` is the first position of a fully matching 5-wide window of `gm`:
the window fits, all five of its entries are true, and no earlier position
has a fitting all-true 5-wide window. -/
def FirstWindow (gm : List Bool) (i : ℕ) : Prop :=
  i + 5 ≤ gm.length ∧ (∀ j, i ≤ j → j < i + 5 → gm.getD j false = true) ∧
    ∀ m, m < i → ¬(m + 5 ≤ gm.length ∧ ∀ j, m ≤ j → j < m + 5 → gm.getD j false = true)

/-- What the amended claim C4 asserts about a row freshly trimmed by
stage 2 with `bad_start = bs` and `bad_end = be`: `rowStart` / `rowEnd`
delimit the row minus its own leading and trailing gap runs, the match
sequence is the exact (case-sensitive) character equality of row and
consensus over `[rowStart, rowEnd)`, `bs` is the first position of a fully
matching 5-wide window of the thresholded smoothed match sequence, and
`be` is the sequence length minus the first such position of the reversed
sequence. -/
def RowTrimSpec (cons : List Char) (r : Row) (bs be : ℕ) : Prop :=
  (∀ j, j < (get_ends r.seq).1 → r.seq.getD j '?' = '-') ∧
  ((get_ends r.seq).1 < r.seq.length → r.seq.getD (get_ends r.seq).1 '?' ≠ '-') ∧
  (∀ j, (get_ends r.seq).2 ≤ j → j < r.seq.length → r.seq.getD j '?' = '-') ∧
  (0 < (get_ends r.seq).2 → r.seq.getD ((get_ends r.seq).2 - 1) '?' ≠ '-') ∧
  (matchSeq cons r.seq).length = (get_ends r.seq).2 - (get_ends r.seq).1 ∧
  (∀ j, j < (get_ends r.seq).2 - (get_ends r.seq).1 →
    (matchSeq cons r.seq).getD j false =
      (r.seq.getD ((get_ends r.seq).1 + j) '?' ==
       cons.getD ((get_ends r.seq).1 + j) '?')) ∧
  FirstWindow ((convSameAvg (matchSeq cons r.seq) 5).map
    (fun q => decide (Rat.divInt 99 100 < q))) bs ∧
  (∃ irev,
    be = ((convSameAvg (matchSeq cons r.seq) 5).map
      (fun q => decide (Rat.divInt 99 100 < q))).length - irev ∧
    FirstWindow ((convSameAvg (matchSeq cons r.seq) 5).map
      (fun q => decide (Rat.divInt 99 100 < q))).reverse irev)

/-! ## Helper lemmas about the scanning primitives -/

theorem orElse_none_eq {α : Type} (x : Option α) : x.orElse (fun _ => none) = x := by
  cases x <;> rfl

/-- The kernel-evaluable quotient in `pythonRound` is the idiomatic
`⌊q + 1/2⌋` for nonnegative arguments. -/
theorem pythonRound_nonneg (q : ℚ) (h : 0 ≤ q) : pythonRound q = ⌊q + 1 / 2⌋ := by
  unfold pythonRound
  rw [if_pos h]
  have hden : ((q.den : ℚ)) ≠ 0 := Nat.cast_ne_zero.mpr q.den_nz
  have hnum : (q.num : ℚ) = q * (q.den : ℚ) := by
    have h0 := Rat.num_div_den q
    rw [div_eq_iff hden] at h0
    exact h0
  have hq : Rat.divInt (2 * q.num + (q.den : ℤ)) (2 * (q.den : ℤ)) = q + 1 / 2 := by
    rw [Rat.divInt_eq_div]
    push_cast
    field_simp
    linear_combination (4 : ℚ) * hnum
  rw [hq, Rat.floor_def', Rat.floor_def]

/-- The kernel-evaluable quotient in `majority` is the idiomatic product
`proportion * taxa`. -/
theorem majority_eq (prop : ℚ) (taxa : ℕ) :
    majority prop taxa = (pythonRound (prop * (taxa : ℚ))).toNat := by
  unfold majority
  have hden : ((prop.den : ℚ)) ≠ 0 := Nat.cast_ne_zero.mpr prop.den_nz
  have hnum : (prop.num : ℚ) = prop * (prop.den : ℚ) := by
    have h0 := Rat.num_div_den prop
    rw [div_eq_iff hden] at h0
    exact h0
  have hq : Rat.divInt (prop.num * (taxa : ℤ)) (prop.den : ℤ) = prop * (taxa : ℚ) := by
    rw [Rat.divInt_eq_div]
    push_cast
    field_simp
    linear_combination (taxa : ℚ) * hnum
  rw [hq]

theorem firstFrom_eq_some {p : ℕ → Bool} :
    ∀ {fuel i j : ℕ}, firstFrom p i fuel = some j →
      i ≤ j ∧ j < i + fuel ∧ p j = true ∧ ∀ m, i ≤ m → m < j → p m = false := by
  intro fuel
  induction fuel with
  | zero => intro i j h; simp [firstFrom] at h
  | succ n ih =>
    intro i j h
    rw [firstFrom] at h
    by_cases hp : p i
    · simp [hp] at h
      subst h
      exact ⟨le_refl i, by omega, hp, fun m h1 h2 => absurd h1 (by omega)⟩
    · simp [hp] at h
      obtain ⟨h1, h2, h3, h4⟩ := ih h
      refine ⟨by omega, by omega, h3, fun m hm1 hm2 => ?_⟩
      rcases Nat.eq_or_lt_of_le hm1 with he | hl
      · simpa [← he] using Bool.eq_false_iff.mpr hp
      · exact h4 m hl hm2

theorem firstFrom_eq_none {p : ℕ → Bool} :
    ∀ {fuel i : ℕ}, firstFrom p i fuel = none ↔
      ∀ j, i ≤ j → j < i + fuel → p j = false := by
  intro fuel
  induction fuel with
  | zero => intro i; simp [firstFrom]; intro j h1 h2; omega
  | succ n ih =>
    intro i
    rw [firstFrom]
    by_cases hp : p i
    · simp [hp]
      exact ⟨i, le_refl i, by omega, hp⟩
    · simp [hp, ih]
      constructor
      · intro h j h1 h2
        rcases Nat.eq_or_lt_of_le h1 with he | hl
        · simpa [← he] using Bool.eq_false_iff.mpr hp
        · exact h j hl (by omega)
      · intro h j h1 h2
        exact h j (by omega) (by omega)

theorem lastFrom_eq_some {p : ℕ → Bool} :
    ∀ {n j : ℕ}, lastFrom p n = some j →
      j < n ∧ p j = true ∧ ∀ m, j < m → m < n → p m = false := by
  intro n
  induction n with
  | zero => intro j h; simp [lastFrom] at h
  | succ n ih =>
    intro j h
    rw [lastFrom] at h
    by_cases hp : p n
    · simp [hp] at h
      subst h
      exact ⟨by omega, hp, fun m h1 h2 => by omega⟩
    · simp [hp] at h
      obtain ⟨h1, h2, h3⟩ := ih h
      refine ⟨by omega, h2, fun m hm1 hm2 => ?_⟩
      rcases Nat.lt_succ_iff_lt_or_eq.mp hm2 with hl | he
      · exact h3 m hm1 hl
      · simpa [he] using Bool.eq_false_iff.mpr hp

theorem lastFrom_eq_none {p : ℕ → Bool} :
    ∀ {n : ℕ}, lastFrom p n = none ↔ ∀ j, j < n → p j = false := by
  intro n
  induction n with
  | zero => simp [lastFrom]
  | succ n ih =>
    rw [lastFrom]
    by_cases hp : p n
    · simp [hp]
      exact ⟨n, by omega, hp⟩
    · simp [hp, ih]
      constructor
      · intro h j hj
        rcases Nat.lt_succ_iff_lt_or_eq.mp hj with hl | he
        · exact h j hl
        · simpa [he] using Bool.eq_false_iff.mpr hp
      · intro h j hj
        exact h j (by omega)

/-! ## Helper lemmas about maxima of count lists -/

theorem foldr_max_mem : ∀ {l : List ℕ}, l ≠ [] → l.foldr max 0 ∈ l := by
  intro l
  induction l with
  | nil => intro h; exact absurd rfl h
  | cons a t ih =>
    intro _
    rcases t with _ | ⟨b, t'⟩
    · simp
    · rcases Nat.le_total a ((b :: t').foldr max 0) with h | h
      · rw [List.foldr_cons, Nat.max_eq_right h]
        exact List.mem_cons_of_mem a (ih (by simp))
      · rw [List.foldr_cons, Nat.max_eq_left h]
        exact List.mem_cons_self a _

theorem le_foldr_max {l : List ℕ} {x : ℕ} (hx : x ∈ l) : x ≤ l.foldr max 0 := by
  induction l with
  | nil => cases hx
  | cons a t ih =>
    rcases List.mem_cons.mp hx with h | h
    · subst h; exact Nat.le_max_left _ _
    · exact le_trans (ih h) (Nat.le_max_right _ _)

theorem foldr_max_le {l : List ℕ} {m : ℕ} (h : ∀ x ∈ l, x ≤ m) : l.foldr max 0 ≤ m := by
  induction l with
  | nil => simp
  | cons a t ih =>
    simp only [List.foldr_cons]
    exact Nat.max_le.mpr ⟨h a (List.mem_cons_self a t), ih fun x hx => h x (List.mem_cons_of_mem a hx)⟩

/-- The value of `mostCommonCount`: an attained maximum of the counts. -/
theorem mostCommonCount_eq_some {l : List Char} {m : ℕ}
    (h : mostCommonCount l = some m) :
    (∃ c ∈ l, l.count c = m) ∧ ∀ c : Char, l.count c ≤ m := by
  rcases l with _ | ⟨a, t⟩
  · simp [mostCommonCount] at h
  · simp only [mostCommonCount, Option.some.injEq] at h
    subst h
    constructor
    · have hne : ((a :: t).dedup.map (fun c => (a :: t).count c)) ≠ [] := by
        simp [List.dedup_eq_nil]
      have := foldr_max_mem hne
      rcases List.mem_map.mp this with ⟨c, hc, hcount⟩
      exact ⟨c, (List.mem_dedup).mp hc, hcount⟩
    · intro c
      by_cases hc : c ∈ a :: t
      · exact le_foldr_max (List.mem_map.mpr ⟨c, (List.mem_dedup).mpr hc, rfl⟩)
      · simp [List.count_eq_zero_of_not_mem hc]

/-! ## Claim theorems settled by evaluation -/

/-- C1: the claim says a stage's failure short-circuits to an explicit
DROPPED outcome and no exception escapes `trim_alignment`.  On an input
whose stage-1 scan finds no qualifying column, `stage_one_trimming`
returns `None`, `trim_alignment` passes `None` straight into
`stage_two_trimming`, and the consensus call on `None` raises: the later
pass is entered and an exception escapes instead of a reported drop. -/
theorem C1_exception_escapes :
    trim_alignment exNoGood 20 (Rat.divInt 3 4) (Rat.divInt 13 20) =
      Except.error PyError.attributeError := by
  decide

/-- C2: the claim says a row consisting entirely of missing-data markers
forces the whole alignment to be dropped at that pass.  The source's test
`set(trim) != (['?'])` compares a set with a list and is always true, so
stage one keeps the all-`'?'` row: the pass returns a surviving alignment
whose fourth row is fourteen `'?'` characters. -/
theorem C2_missing_row_kept :
    stage_one_trimming (some exMissingRow) 20 (Rat.divInt 3 4) (Rat.divInt 13 20) =
      Except.ok (some
        [mkRow "a" "AAAAAAAAAAAAAA", mkRow "b" "AAAAAAAAAAAAAA",
         mkRow "c" "AAAAAAAAAAAAAA", mkRow "d" "??????????????"]) := by
  decide

/-- C6: the claim says a row with no 5-wide fully matching window makes
stage 2 fail and drop the whole alignment.  When such a row comes first,
the locals `bad_start` / `bad_end` have never been assigned and the masking
line raises `UnboundLocalError` instead of dropping (and for a later row
the previous row's boundaries would be silently reused). -/
theorem C6_unbound_error :
    stage_two_trimming (some exNoRun) 5 = Except.error PyError.unboundLocal := by
  decide

/-- C3 counterexample: on a column of two `'A'` and two gaps the code emits
`'A'` (the winner's frequency is measured against the two non-gap
characters) while the claim's rule — the gap counted toward the total, the
frequency measured against the row count 4 — emits the gap marker; on a
column of `'a'`, `'a'`, `'A'`, `'-'` the code tallies cases separately and
emits the gap marker while the claim's case-normalised rule emits `'A'`. -/
theorem C3_counterexample :
    alignment_consensus exHalfGap = ['A'] ∧
    specClaimConsensus exHalfGap = ['-'] ∧
    alignment_consensus exMixedCase = ['-'] ∧
    specClaimConsensus exMixedCase = ['A'] := by
  decide

/-- C4 counterexample: on `exLowerTail` stage 2 succeeds and trims every
row (so its fourth row is a "row trimmed in stage 2"), yet the match
sequence the code builds for that row compares characters exactly and
disagrees with the claim's case-insensitive comparison on the lower-case
tail. -/
theorem C4_counterexample :
    stage_two_trimming (some exLowerTail) 5 =
      Except.ok (some
        [mkRow "a" "--GTACGTACGTAC--", mkRow "b" "--GTACGTACGTAC--",
         mkRow "c" "--GTACGTACGTAC--", mkRow "d" "--GTACGTAC------"]) ∧
    matchSeq (alignment_consensus exLowerTail) rowLowerTail.seq ≠
      matchSeqCI (alignment_consensus exLowerTail) rowLowerTail.seq := by
  decide

/-- C5 counterexample: on `exGapCol` with `windowSize = 1`,
`threshold = 1`, `proportion = 1`, some column's smoothed GOOD/BAD score
reaches the threshold (columns 0 and 1 are GOOD), yet the stage-1 scan
returns neither NONE nor the qualifying indices: the all-gap third column
passes the gap test and raises `IndexError` on the empty tally. -/
theorem C5_counterexample :
    specSomeColumnQualifies exGapCol 1 1 1 = true ∧
    running_average exGapCol 1 1 1 = Except.error PyError.indexError := by
  decide

/-- C7 counterexample: in the stage-1 scan over `exOnlyGaps` with
`proportion = 1` (so `majorityCount = round(1 × 2) = 2`), the all-gap
column has a gap count of 2, which does not exceed `majorityCount`, yet
the code classifies it neither GOOD nor BAD: deleting the gap marker
leaves an empty counter and `most_common(1)[0]` raises `IndexError`. -/
theorem C7_counterexample :
    majority 1 2 = 2 ∧
    column exOnlyGaps 0 = ['-', '-'] ∧
    classifyColumn ['-', '-'] 2 = Except.error PyError.indexError ∧
    running_average exOnlyGaps 1 1 1 = Except.error PyError.indexError := by
  decide

/-! ## Helper lemmas about the smoothed match sequence -/

theorem length_takeWhileLe (p : Char → Bool) : ∀ l : List Char, (l.takeWhile p).length ≤ l.length := by
  intro l
  induction l with
  | nil => simp
  | cons a t ih =>
    by_cases hp : p a
    · rw [List.takeWhile_cons_of_pos hp]
      simpa using ih
    · rw [List.takeWhile_cons_of_neg hp]
      simp

theorem takeWhile_sound (p : Char → Bool) :
    ∀ (l : List Char) (j : ℕ), j < (l.takeWhile p).length → p (l.getD j '?') = true := by
  intro l
  induction l with
  | nil => intro j h; simp [List.takeWhile] at h
  | cons a t ih =>
    intro j h
    by_cases hp : p a
    · rw [List.takeWhile_cons_of_pos hp] at h
      cases j with
      | zero => simpa using hp
      | succ n =>
        rw [List.getD_cons_succ]
        exact ih n (by simpa using h)
    · rw [List.takeWhile_cons_of_neg hp] at h
      simp at h

theorem takeWhile_boundary (p : Char → Bool) :
    ∀ l : List Char, (l.takeWhile p).length < l.length →
      p (l.getD (l.takeWhile p).length '?') = false := by
  intro l
  induction l with
  | nil => intro h; simp at h
  | cons a t ih =>
    intro h
    by_cases hp : p a
    · rw [List.takeWhile_cons_of_pos hp] at h ⊢
      simpa using ih (by simpa using h)
    · rw [List.takeWhile_cons_of_neg hp] at h ⊢
      simpa using Bool.eq_false_iff.mpr hp

theorem getD_reverse {l : List Char} {j : ℕ} (h : j < l.length) (d : Char) :
    l.reverse.getD (l.length - 1 - j) d = l.getD j d := by
  have h1 : l.length - 1 - j < l.reverse.length := by
    rw [List.length_reverse]; omega
  rw [List.getD_eq_getElem _ _ h1, List.getD_eq_getElem _ _ h, List.getElem_reverse]
  congr 1
  omega

theorem getD_reverse_bool {l : List Bool} {j : ℕ} (h : j < l.length) (d : Bool) :
    l.reverse.getD (l.length - 1 - j) d = l.getD j d := by
  have h1 : l.length - 1 - j < l.reverse.length := by
    rw [List.length_reverse]; omega
  rw [List.getD_eq_getElem _ _ h1, List.getD_eq_getElem _ _ h, List.getElem_reverse]
  congr 1
  omega

theorem windowCount_le (a : List Bool) (M i : ℕ) :
    windowCount a M i ≤
      min (min a.length (i + (min a.length M - 1) / 2 + 1) -
            (i + (min a.length M - 1) / 2 + 1 - M))
          (a.length - (i + (min a.length M - 1) / 2 + 1 - M)) := by
  unfold windowCount
  refine le_trans (List.count_le_length _ _) ?_
  rw [List.length_take, List.length_drop]

theorem convSameAvg_length (a : List Bool) (M : ℕ) :
    (convSameAvg a M).length = max a.length M := by
  simp [convSameAvg]

theorem convSameAvg_getD {a : List Bool} {M i : ℕ} (h : i < max a.length M) :
    (convSameAvg a M).getD i 0 = Rat.divInt (windowCount a M i : ℤ) (M : ℤ) := by
  have h' : i < (convSameAvg a M).length := by rw [convSameAvg_length]; exact h
  rw [List.getD_eq_getElem _ _ h']
  simp [convSameAvg]

theorem not_lt_99_of_le_four {k : ℕ} (hk : k ≤ 4) :
    ¬ Rat.divInt 99 100 < Rat.divInt (k : ℤ) 5 := by
  rw [not_lt]
  have h1 : Rat.divInt (k : ℤ) 5 ≤ Rat.divInt 4 5 := by
    rw [Rat.divInt_le_divInt (by norm_num) (by norm_num)]
    have : (k : ℤ) ≤ 4 := by exact_mod_cast hk
    omega
  have h2 : Rat.divInt 4 5 ≤ Rat.divInt 99 100 := by
    rw [Rat.divInt_le_divInt (by norm_num) (by norm_num)]
    norm_num
  exact le_trans h1 h2

theorem gm5_entry_false {cmp : List Bool} {i : ℕ} (h4 : windowCount cmp 5 i ≤ 4) :
    decide (Rat.divInt 99 100 < (convSameAvg cmp 5).getD i 0) = false := by
  by_cases hi : i < max cmp.length 5
  · rw [convSameAvg_getD hi]
    exact decide_eq_false (not_lt_99_of_le_four h4)
  · have hz : (convSameAvg cmp 5).getD i 0 = 0 := by
      rw [List.getD_eq_default]
      rw [convSameAvg_length]; omega
    rw [hz]
    refine decide_eq_false ?_
    rw [not_lt]
    norm_num [Rat.divInt_eq_div]

theorem gm5_tail_false {cmp : List Bool} {i : ℕ} (h : cmp.length ≤ i + 2) :
    decide (Rat.divInt 99 100 < (convSameAvg cmp 5).getD i 0) = false :=
  gm5_entry_false (by have := windowCount_le cmp 5 i; omega)

theorem gm5_head_false {cmp : List Bool} {i : ℕ} (h : i ≤ 1) :
    decide (Rat.divInt 99 100 < (convSameAvg cmp 5).getD i 0) = false :=
  gm5_entry_false (by have := windowCount_le cmp 5 i; omega)

theorem getD_map_q {l : List ℚ} {f : ℚ → Bool} {j : ℕ} (h : j < l.length) (d : Bool) :
    (l.map f).getD j d = f (l.getD j 0) := by
  have h' : j < (l.map f).length := by simpa using h
  rw [List.getD_eq_getElem _ _ h', List.getD_eq_getElem _ _ h, List.getElem_map]

theorem windowAll_iff {gm : List Bool} {i : ℕ} :
    windowAll gm i = true ↔
      ∀ j, i ≤ j → j < min (i + 5) gm.length → gm.getD j false = true := by
  unfold windowAll
  rw [List.all_eq_true]
  constructor
  · intro h j hj1 hj2
    exact h j (List.mem_range'_1.mpr ⟨hj1, by omega⟩)
  · intro h j hj
    obtain ⟨h1, h2⟩ := List.mem_range'_1.mp hj
    exact h j h1 (by omega)

/-- A successful window scan over the thresholded smoothed match sequence
finds the first position of a fully matching unclamped 5-wide window: the
clamped slices the source inspects cannot be all-true near the right edge,
because the zero-padded average is below the 0.99 proxy there. -/
theorem findWin_firstWindow {cmp : List Bool} {i : ℕ}
    (h : findWin ((convSameAvg cmp 5).map (fun q => decide (Rat.divInt 99 100 < q))) = some i) :
    FirstWindow ((convSameAvg cmp 5).map (fun q => decide (Rat.divInt 99 100 < q))) i := by
  have hlen : ((convSameAvg cmp 5).map
      (fun q => decide (Rat.divInt 99 100 < q))).length = max cmp.length 5 := by
    rw [List.length_map, convSameAvg_length]
  unfold findWin at h
  obtain ⟨_, hlt, hwin, hmin⟩ := firstFrom_eq_some h
  have h5 : i + 5 ≤ ((convSameAvg cmp 5).map
      (fun q => decide (Rat.divInt 99 100 < q))).length := by
    by_contra hcon
    push_neg at hcon
    have hidx : ((convSameAvg cmp 5).map (fun q => decide (Rat.divInt 99 100 < q))).getD
        (((convSameAvg cmp 5).map (fun q => decide (Rat.divInt 99 100 < q))).length - 1)
        false = true := by
      refine windowAll_iff.mp hwin _ (by omega) (by omega)
    have hfalse : ((convSameAvg cmp 5).map (fun q => decide (Rat.divInt 99 100 < q))).getD
        (((convSameAvg cmp 5).map (fun q => decide (Rat.divInt 99 100 < q))).length - 1)
        false = false := by
      rw [getD_map_q (by rw [convSameAvg_length]; omega)]
      exact gm5_tail_false (by omega)
    rw [hfalse] at hidx
    cases hidx
  refine ⟨h5, ?_, ?_⟩
  · intro j hj1 hj2
    exact windowAll_iff.mp hwin j hj1 (by omega)
  · intro m hm hcon
    obtain ⟨hm5, hmwin⟩ := hcon
    have hall : windowAll ((convSameAvg cmp 5).map
        (fun q => decide (Rat.divInt 99 100 < q))) m = true :=
      windowAll_iff.mpr (fun j hj1 hj2 => hmwin j hj1 (by omega))
    have := hmin m (Nat.zero_le m) hm
    rw [this] at hall
    cases hall

/-- The reversed scan finds the first position of a fully matching 5-wide
window of the reversed sequence; near its right edge the reversed sequence
carries the left-edge entries of the smoothed average, which are below the
0.99 proxy. -/
theorem findWin_reverse_firstWindow {cmp : List Bool} {i : ℕ}
    (h : findWin ((convSameAvg cmp 5).map
      (fun q => decide (Rat.divInt 99 100 < q))).reverse = some i) :
    FirstWindow ((convSameAvg cmp 5).map
      (fun q => decide (Rat.divInt 99 100 < q))).reverse i := by
  have hlenr : ((convSameAvg cmp 5).map
      (fun q => decide (Rat.divInt 99 100 < q))).reverse.length = max cmp.length 5 := by
    rw [List.length_reverse, List.length_map, convSameAvg_length]
  unfold findWin at h
  obtain ⟨_, hlt, hwin, hmin⟩ := firstFrom_eq_some h
  have h5 : i + 5 ≤ ((convSameAvg cmp 5).map
      (fun q => decide (Rat.divInt 99 100 < q))).reverse.length := by
    by_contra hcon
    push_neg at hcon
    have hidx : ((convSameAvg cmp 5).map
        (fun q => decide (Rat.divInt 99 100 < q))).reverse.getD
        (((convSameAvg cmp 5).map
          (fun q => decide (Rat.divInt 99 100 < q))).reverse.length - 1) false = true := by
      refine windowAll_iff.mp hwin _ (by omega) (by omega)
    have hrev : ((convSameAvg cmp 5).map
        (fun q => decide (Rat.divInt 99 100 < q))).reverse.getD
        (((convSameAvg cmp 5).map
          (fun q => decide (Rat.divInt 99 100 < q))).reverse.length - 1) false =
        ((convSameAvg cmp 5).map (fun q => decide (Rat.divInt 99 100 < q))).getD 0 false := by
      rw [List.length_reverse]
      have h0 : 0 < ((convSameAvg cmp 5).map
          (fun q => decide (Rat.divInt 99 100 < q))).length := by
        rw [List.length_map, convSameAvg_length]; omega
      have := getD_reverse_bool h0 false
      simpa using this
    have hfalse : ((convSameAvg cmp 5).map
        (fun q => decide (Rat.divInt 99 100 < q))).getD 0 false = false := by
      rw [getD_map_q (by rw [convSameAvg_length]; omega)]
      exact gm5_head_false (by omega)
    rw [hrev, hfalse] at hidx
    cases hidx
  refine ⟨h5, ?_, ?_⟩
  · intro j hj1 hj2
    exact windowAll_iff.mp hwin j hj1 (by omega)
  · intro m hm hcon
    obtain ⟨hm5, hmwin⟩ := hcon
    have hall : windowAll ((convSameAvg cmp 5).map
        (fun q => decide (Rat.divInt 99 100 < q))).reverse m = true :=
      windowAll_iff.mpr (fun j hj1 hj2 => hmwin j hj1 (by omega))
    have := hmin m (Nat.zero_le m) hm
    rw [this] at hall
    cases hall

/-- C7 (amended): with `majorityCount = round(proportion × rowCount)`,
every column whose gap count exceeds `majorityCount` is classified BAD,
and every other column that contains at least one non-gap character is
classified GOOD iff some non-gap character's count (equivalently, the most
frequent non-gap character's count) reaches `majorityCount`.  A column of
only gaps whose gap count does not exceed `majorityCount` is not
classified at all: the scan raises `IndexError` (see the counterexample). -/
theorem C7_amended (col : List Char) (maj : ℕ) :
    (maj < col.count '-' → classifyColumn col maj = Except.ok false) ∧
    (col.count '-' ≤ maj → (∃ c ∈ col, c ≠ '-') →
      (classifyColumn col maj = Except.ok true ↔
        ∃ c : Char, c ≠ '-' ∧ maj ≤ col.count c)) := by
  constructor
  · intro hlt
    simp [classifyColumn, Nat.not_le.mpr hlt]
  · intro hle hex
    obtain ⟨c0, hc0mem, hc0ne⟩ := hex
    have hmem : c0 ∈ col.filter (fun c => decide (c ≠ '-')) :=
      List.mem_filter.mpr ⟨hc0mem, by simpa using hc0ne⟩
    obtain ⟨m, hm⟩ : ∃ m, mostCommonCount (col.filter (fun c => decide (c ≠ '-'))) = some m := by
      rcases hA : col.filter (fun c => decide (c ≠ '-')) with _ | ⟨a, t⟩
      · rw [hA] at hmem; cases hmem
      · exact ⟨_, rfl⟩
    obtain ⟨⟨cmax, hcmaxmem, hcmaxcnt⟩, hub⟩ := mostCommonCount_eq_some hm
    have hclassify : classifyColumn col maj = Except.ok (decide (maj ≤ m)) := by
      unfold classifyColumn
      rw [if_pos hle, hm]
    rw [hclassify]
    constructor
    · intro htrue
      have hmle : maj ≤ m := of_decide_eq_true (Except.ok.inj htrue)
      have hne : cmax ≠ '-' := by simpa using (List.mem_filter.mp hcmaxmem).2
      have heq : (col.filter (fun c => decide (c ≠ '-'))).count cmax = col.count cmax :=
        List.count_filter (by simpa using hne)
      exact ⟨cmax, hne, by omega⟩
    · intro hcex
      obtain ⟨c, hcne, hccnt⟩ := hcex
      have heq : (col.filter (fun c => decide (c ≠ '-'))).count c = col.count c :=
        List.count_filter (by simpa using hcne)
      have hub' := hub c
      have hmle : maj ≤ m := by omega
      simp [hmle]

/-- Witness for C7: a column of two `'A'` and one gap with
`majorityCount = 1` is classified GOOD. -/
theorem C7_amended_witness : classifyColumn ['A', 'A', '-'] 1 = Except.ok true :=
  ((C7_amended ['A', 'A', '-'] 1).2 (by decide) ⟨'A', by decide, by decide⟩).mpr
    ⟨'A', by decide, by decide⟩

/-- C5 (amended): whenever the stage-1 scan completes without a Python
error, it returns NONE iff no column's zero-padded centred moving average
of the GOOD/BAD scores reaches the threshold — in which case the pass
returns the drop value — and whenever some column qualifies it returns the
first and last qualifying column indices.  (As stated originally the claim
is false: a column of gaps that passes the gap test makes the scan raise
`IndexError` before returning anything, see the counterexample; and a last
qualifying index of 0 also makes the pass drop the alignment because the
source tests the truthiness of `end`.) -/
theorem C5_amended (aln : Alignment) (ws : ℕ) (thr prop : ℚ) (r : Option (ℕ × ℕ))
    (h : running_average aln ws thr prop = Except.ok r) :
    ScanSpec aln ws thr prop r := by
  unfold running_average at h
  rcases hmm : (List.range (alignment_length aln)).mapM
      (fun j => classifyColumn (column aln j) (majority prop aln.length)) with e | scores
  all_goals rw [hmm] at h
  · simp only at h
    exact Except.noConfusion h
  · simp only at h
    by_cases hsc : scores.isEmpty
    · rw [if_pos hsc] at h
      exact Except.noConfusion h
    · rw [if_neg hsc] at h
      refine ⟨scores, hmm, by simpa using hsc, ?_, ?_, ?_⟩
      · -- r = none ↔ no qualifying index
        rcases hf : firstFrom (fun i => decide (thr ≤ (convSameAvg scores ws).getD i 0)) 0
            (convSameAvg scores ws).length with _ | s
        · rcases hl : lastFrom (fun i => decide (thr ≤ (convSameAvg scores ws).getD i 0))
              (convSameAvg scores ws).length with _ | e
          · simp only [hf, hl] at h
            obtain rfl : r = none := (Except.ok.inj h).symm
            simp only [true_iff]
            intro i hi
            have := firstFrom_eq_none.mp hf i (Nat.zero_le i) (by omega)
            exact of_decide_eq_false this
          · obtain ⟨hlt, hp, _⟩ := lastFrom_eq_some hl
            have := firstFrom_eq_none.mp hf e (Nat.zero_le e) (by omega)
            rw [this] at hp; cases hp
        · rcases hl : lastFrom (fun i => decide (thr ≤ (convSameAvg scores ws).getD i 0))
              (convSameAvg scores ws).length with _ | e
          · obtain ⟨_, hslt, hp, _⟩ := firstFrom_eq_some hf
            have := lastFrom_eq_none.mp hl s (by omega)
            rw [this] at hp; cases hp
          · simp only [hf, hl] at h
            obtain rfl : r = some (s, e) := (Except.ok.inj h).symm
            obtain ⟨_, hslt, hps, _⟩ := firstFrom_eq_some hf
            constructor
            · intro hc; exact Option.noConfusion hc
            · intro hall
              exact absurd (of_decide_eq_true hps) (hall s (by omega))
      · -- a some result carries the first and last qualifying index
        intro s e hr
        rcases hf : firstFrom (fun i => decide (thr ≤ (convSameAvg scores ws).getD i 0)) 0
            (convSameAvg scores ws).length with _ | s'
        · rcases hl : lastFrom (fun i => decide (thr ≤ (convSameAvg scores ws).getD i 0))
              (convSameAvg scores ws).length with _ | e'
          · simp only [hf, hl] at h
            obtain rfl : r = none := (Except.ok.inj h).symm
            exact Option.noConfusion hr
          · obtain ⟨hlt, hp, _⟩ := lastFrom_eq_some hl
            have := firstFrom_eq_none.mp hf e' (Nat.zero_le e') (by omega)
            rw [this] at hp; cases hp
        · rcases hl : lastFrom (fun i => decide (thr ≤ (convSameAvg scores ws).getD i 0))
              (convSameAvg scores ws).length with _ | e'
          · obtain ⟨_, hslt, hp, _⟩ := firstFrom_eq_some hf
            have := lastFrom_eq_none.mp hl s' (by omega)
            rw [this] at hp; cases hp
          · simp only [hf, hl] at h
            obtain rfl : r = some (s', e') := (Except.ok.inj h).symm
            obtain ⟨hs, he⟩ : s = s' ∧ e = e' := by
              have := Option.some.inj hr
              exact ⟨(congrArg Prod.fst this).symm, (congrArg Prod.snd this).symm⟩
            subst hs; subst he
            obtain ⟨_, hslt, hps, hsmin⟩ := firstFrom_eq_some hf
            obtain ⟨helt, hpe, hemax⟩ := lastFrom_eq_some hl
            refine ⟨⟨of_decide_eq_true hps, fun j hj => ?_⟩,
                    ⟨of_decide_eq_true hpe, fun j hj1 hj2 => ?_⟩⟩
            · exact of_decide_eq_false (hsmin j (Nat.zero_le j) hj)
            · exact of_decide_eq_false (hemax j hj1 hj2)
      · -- a NONE scan makes the pass drop
        intro hr
        subst hr
        have hra : running_average aln ws thr prop = Except.ok none := by
          unfold running_average
          rw [hmm]
          simp only
          rw [if_neg hsc]
          exact h
        simp [stage_one_trimming, hra]

/-- Witness for C5: on two identical ungapped 10-wide rows with
`windowSize = 1`, `threshold = 3/4`, `proportion = 13/20`, the scan
completes and returns the qualifying range `(0, 9)`. -/
theorem C5_amended_witness :
    ScanSpec exSurvive 1 (Rat.divInt 3 4) (Rat.divInt 13 20) (some (0, 9)) :=
  C5_amended exSurvive 1 (Rat.divInt 3 4) (Rat.divInt 13 20) (some (0, 9)) (by decide)

/-- C4 (amended): for every row freshly trimmed in stage 2 (the
`bad_start` / `bad_end` locals were not inherited from an earlier row),
the match sequence is the exact, case-sensitive equality of the row's
characters against the consensus over `[rowStart, rowEnd)` — the row minus
its own leading and trailing gap runs — `badStart` is the first index at
which 5 consecutive positions of the smoothed match sequence are all above
the 0.99 proxy, and `badEnd` is the sequence length minus the first such
index of the reversed sequence.  (As stated originally the claim is false:
the source compares characters exactly, not case-insensitively, see the
counterexample.) -/
theorem C4_amended (cons : List Char) (r : Row) (trim : List Char) (bs be : ℕ)
    (hlen : cons.length = r.seq.length)
    (h : rowTrim cons 5 r none none = Except.ok (trim, bs, be)) :
    RowTrimSpec cons r bs be := by
  unfold rowTrim at h
  by_cases hemp : (matchSeq cons r.seq).isEmpty
  · rw [if_pos hemp] at h
    exact Except.noConfusion h
  · rw [if_neg hemp] at h
    rcases hA : (findWin ((convSameAvg (matchSeq cons r.seq) 5).map
        (fun q => decide (Rat.divInt 99 100 < q)))).orElse
        (fun _ => (none : Option ℕ)) with _ | bs0
    all_goals rw [hA] at h
    · exact Except.noConfusion h
    rcases hB : ((findWin ((convSameAvg (matchSeq cons r.seq) 5).map
        (fun q => decide (Rat.divInt 99 100 < q))).reverse).map
          (fun i => ((convSameAvg (matchSeq cons r.seq) 5).map
            (fun q => decide (Rat.divInt 99 100 < q))).reverse.length - i)).orElse
        (fun _ => (none : Option ℕ)) with _ | be0
    all_goals rw [hB] at h
    · exact Except.noConfusion h
    · rw [orElse_none_eq] at hA hB
      have hw1 : findWin ((convSameAvg (matchSeq cons r.seq) 5).map
          (fun q => decide (Rat.divInt 99 100 < q))) = some bs0 := hA
      obtain ⟨irev, hw2, hbe0⟩ := Option.map_eq_some'.mp hB
      have hinj := Except.ok.inj h
      have htrim : maskRow r.seq ((get_ends r.seq).1 + bs0)
          ((get_ends r.seq).1 + be0) = trim :=
        congrArg Prod.fst hinj
      have hbs : bs0 = bs := congrArg (fun p => p.2.1) hinj
      have hbe : ((convSameAvg (matchSeq cons r.seq) 5).map
          (fun q => decide (Rat.divInt 99 100 < q))).reverse.length - irev = be := by
        rw [hbe0]
        exact congrArg (fun p => p.2.2) hinj
      subst hbs
      have hst : (get_ends r.seq).1 = (r.seq.takeWhile (fun c => c == '-')).length := rfl
      have hen : (get_ends r.seq).2 =
          r.seq.length - (r.seq.reverse.takeWhile (fun c => c == '-')).length := rfl
      have hRle : (r.seq.reverse.takeWhile (fun c => c == '-')).length ≤ r.seq.length := by
        have := length_takeWhileLe (fun c => c == '-') r.seq.reverse
        simpa using this
      have he2le : (get_ends r.seq).2 ≤ r.seq.length := by rw [hen]; omega
      have hlen5 : (matchSeq cons r.seq).length =
          (get_ends r.seq).2 - (get_ends r.seq).1 := by
        simp only [matchSeq, pySlice, List.length_zipWith, List.length_take,
          List.length_drop, hlen]
        omega
      refine ⟨?_, ?_, ?_, ?_, hlen5, ?_, ?_, ?_⟩
      · -- leading gap run
        intro j hj
        rw [hst] at hj
        have := takeWhile_sound (fun c => c == '-') r.seq j hj
        simpa using this
      · -- first non-gap character
        intro hlt
        rw [hst] at hlt ⊢
        have := takeWhile_boundary (fun c => c == '-') r.seq hlt
        simpa using this
      · -- trailing gap run
        intro j hj1 hj2
        rw [hen] at hj1
        have hidx : r.seq.length - 1 - j <
            (r.seq.reverse.takeWhile (fun c => c == '-')).length := by omega
        have hsound := takeWhile_sound (fun c => c == '-') r.seq.reverse
          (r.seq.length - 1 - j) hidx
        rw [getD_reverse hj2] at hsound
        simpa using hsound
      · -- last non-gap character
        intro hpos
        rw [hen] at hpos ⊢
        have hRlt : (r.seq.reverse.takeWhile (fun c => c == '-')).length <
            r.seq.reverse.length := by
          rw [List.length_reverse]; omega
        have hbound := takeWhile_boundary (fun c => c == '-') r.seq.reverse hRlt
        have hjlt : r.seq.length -
            (r.seq.reverse.takeWhile (fun c => c == '-')).length - 1 < r.seq.length := by
          omega
        have hgd := getD_reverse hjlt '?'
        have hidx2 : r.seq.length - 1 - (r.seq.length -
            (r.seq.reverse.takeWhile (fun c => c == '-')).length - 1) =
            (r.seq.reverse.takeWhile (fun c => c == '-')).length := by omega
        rw [hidx2] at hgd
        rw [← hgd]
        intro hcontra
        rw [hcontra] at hbound
        simp at hbound
      · -- exact pointwise comparison
        intro j hj
        have hjm : j < (matchSeq cons r.seq).length := by rw [hlen5]; exact hj
        have hstlt : (get_ends r.seq).1 + j < r.seq.length := by omega
        have hstltc : (get_ends r.seq).1 + j < cons.length := by omega
        rw [List.getD_eq_getElem _ _ hjm,
          List.getD_eq_getElem _ _ hstlt, List.getD_eq_getElem _ _ hstltc]
        have hjs : j < (pySlice r.seq (get_ends r.seq).1 (get_ends r.seq).2).length := by
          simp only [pySlice, List.length_take, List.length_drop]
          omega
        have hjc : j < (pySlice cons (get_ends r.seq).1 (get_ends r.seq).2).length := by
          simp only [pySlice, List.length_take, List.length_drop, hlen]
          omega
        simp only [matchSeq]
        rw [List.getElem_zipWith]
        simp only [pySlice]
        rw [List.getElem_take, List.getElem_drop, List.getElem_take, List.getElem_drop]
      · -- badStart is the first fully matching window
        exact findWin_firstWindow hw1
      · -- badEnd comes from the reversed scan
        refine ⟨irev, ?_, findWin_reverse_firstWindow hw2⟩
        rw [← hbe, List.length_reverse]

/-- Witness for C4: a 10-wide all-`'A'` row against an all-`'A'` consensus
is freshly trimmed with `bad_start = 2` and `bad_end = 8`, and satisfies
the amended description. -/
theorem C4_amended_witness : RowTrimSpec consA rowA 2 8 :=
  C4_amended consA rowA ("--AAAAAA--".toList) 2 8 (by decide) (by decide)

/-! ## Helper lemmas about masking and the pass plumbing -/

theorem maskRow_getElem? (s : List Char) (lo hi j : ℕ) :
    (maskRow s lo hi)[j]? =
      (s[j]?).map (fun c => if j < lo ∨ hi ≤ j then '-' else c) := by
  cases h : s[j]? <;>
    simp [maskRow, List.getElem?_map, List.getElem?_enum, h]

theorem maskRow_length (s : List Char) (lo hi : ℕ) :
    (maskRow s lo hi).length = s.length := by
  simp [maskRow, List.enum_length]

/-- A successful `rowTrim` returns the mask of the row at the used
boundaries. -/
theorem rowTrim_ok {cons : List Char} {ws : ℕ} {r : Row} {obs obe : Option ℕ}
    {trim : List Char} {bs be : ℕ}
    (h : rowTrim cons ws r obs obe = Except.ok (trim, bs, be)) :
    trim = maskRow r.seq ((get_ends r.seq).1 + bs) ((get_ends r.seq).1 + be) := by
  unfold rowTrim at h
  by_cases hemp : (matchSeq cons r.seq).isEmpty
  · rw [if_pos hemp] at h
    exact Except.noConfusion h
  · rw [if_neg hemp] at h
    rcases hA : (findWin ((convSameAvg (matchSeq cons r.seq) ws).map
        (fun q => decide (Rat.divInt 99 100 < q)))).orElse
        (fun _ => obs) with _ | bs0
    all_goals rw [hA] at h
    · exact Except.noConfusion h
    rcases hB : ((findWin ((convSameAvg (matchSeq cons r.seq) ws).map
        (fun q => decide (Rat.divInt 99 100 < q))).reverse).map
          (fun i => ((convSameAvg (matchSeq cons r.seq) ws).map
            (fun q => decide (Rat.divInt 99 100 < q))).reverse.length - i)).orElse
        (fun _ => obe) with _ | be0
    all_goals rw [hB] at h
    · exact Except.noConfusion h
    · have hinj := Except.ok.inj h
      injection hinj with htrim hrest
      injection hrest with hbs hbe
      subst hbs
      subst hbe
      exact htrim.symm

theorem rowTrim_length {cons : List Char} {ws : ℕ} {r : Row} {obs obe : Option ℕ}
    {trim : List Char} {bs be : ℕ}
    (h : rowTrim cons ws r obs obe = Except.ok (trim, bs, be)) :
    trim.length = r.seq.length := by
  rw [rowTrim_ok h, maskRow_length]

/-- A successful stage one returns the rows clipped to one common span. -/
theorem stage_one_ok_some {aln out : Alignment} {ws : ℕ} {thr prop : ℚ}
    (h : stage_one_trimming (some aln) ws thr prop = Except.ok (some out)) :
    ∃ s e, out = aln.map (fun q => ({ id := q.id, seq := pySlice q.seq s e } : Row)) := by
  simp only [stage_one_trimming] at h
  rcases hra : running_average aln ws thr prop with e' | r
  all_goals rw [hra] at h
  · simp only at h
    exact Except.noConfusion h
  rcases r with _ | ⟨s, e⟩
  all_goals simp only at h
  · exact Option.noConfusion (Except.ok.inj h)
  · by_cases he : e = 0
    · rw [if_pos he] at h
      exact Option.noConfusion (Except.ok.inj h)
    · rw [if_neg he] at h
      by_cases hany : (aln.map
          (fun q => ({ id := q.id, seq := pySlice q.seq s e } : Row))).any
          (fun q => isAllGapRow q.seq)
      · rw [if_pos hany] at h
        exact Option.noConfusion (Except.ok.inj h)
      · rw [if_neg hany] at h
        exact ⟨s, e, (Option.some.inj (Except.ok.inj h)).symm⟩

/-- A successful stage-two row loop keeps the accumulated rows, preserves
every row's label in order, and preserves every row's length. -/
theorem stage_two_go_ok {cons : List Char} {ws : ℕ} :
    ∀ {rows : List Row} {obs obe : Option ℕ} {acc out : List Row},
      stage_two_go cons ws rows obs obe acc = Except.ok (some out) →
      out.map Row.id = acc.map Row.id ++ rows.map Row.id ∧
      out.map (fun q => q.seq.length) =
        acc.map (fun q => q.seq.length) ++ rows.map (fun q => q.seq.length) := by
  intro rows
  induction rows with
  | nil =>
    intro obs obe acc out h
    have : acc = out := Option.some.inj (Except.ok.inj h)
    subst this
    simp
  | cons r rest ih =>
    intro obs obe acc out h
    simp only [stage_two_go] at h
    rcases hrt : rowTrim cons ws r obs obe with e | p
    all_goals rw [hrt] at h
    · simp only at h
      exact Except.noConfusion h
    · obtain ⟨trim, bs, be⟩ := p
      simp only at h
      by_cases hg : isAllGapRow trim
      · rw [if_pos hg] at h
        exact Option.noConfusion (Except.ok.inj h)
      · rw [if_neg hg] at h
        obtain ⟨hids, hlens⟩ := ih h
        constructor
        · rw [hids]
          simp
        · rw [hlens]
          simp [rowTrim_length hrt]

/-- A successful stage two preserves labels and per-row lengths. -/
theorem stage_two_ok {aln out : Alignment} {ws : ℕ}
    (h : stage_two_trimming (some aln) ws = Except.ok (some out)) :
    out.map Row.id = aln.map Row.id ∧
    out.map (fun q => q.seq.length) = aln.map (fun q => q.seq.length) := by
  have h' : stage_two_go (alignment_consensus aln) ws aln none none [] =
      Except.ok (some out) := h
  simpa using stage_two_go_ok h'

theorem stage_one_ids {aln out : Alignment} {ws : ℕ} {thr prop : ℚ}
    (h : stage_one_trimming (some aln) ws thr prop = Except.ok (some out)) :
    out.map Row.id = aln.map Row.id := by
  obtain ⟨s, e, rfl⟩ := stage_one_ok_some h
  simp

theorem stage_one_lengths {aln out : Alignment} {ws : ℕ} {thr prop : ℚ} {w : ℕ}
    (hval : ∀ q ∈ aln, q.seq.length = w)
    (h : stage_one_trimming (some aln) ws thr prop = Except.ok (some out)) :
    ∃ w2, w2 ≤ w ∧ ∀ q ∈ out, q.seq.length = w2 := by
  obtain ⟨s, e, rfl⟩ := stage_one_ok_some h
  refine ⟨min (e - s) (w - s), le_trans (min_le_right _ _) (Nat.sub_le _ _), ?_⟩
  intro q hq
  obtain ⟨q0, hq0, rfl⟩ := List.mem_map.mp hq
  simp [pySlice, List.length_take, List.length_drop, hval q0 hq0]

theorem lengths_of_map_eq {out aln : List Row} {w : ℕ}
    (hmap : out.map (fun q => q.seq.length) = aln.map (fun q => q.seq.length))
    (hval : ∀ q ∈ aln, q.seq.length = w) : ∀ q ∈ out, q.seq.length = w := by
  intro q hq
  have hmem : q.seq.length ∈ out.map (fun q => q.seq.length) :=
    List.mem_map.mpr ⟨q, hq, rfl⟩
  rw [hmap] at hmem
  obtain ⟨q', hq', he⟩ := List.mem_map.mp hmem
  rw [← he]
  exact hval q' hq'

/-- C8: for every row for which stage 2 finds `bad_start` / `bad_end`
(fresh or inherited), the output row is the input row with every character
before column `rowStart + badStart` and from column `rowStart + badEnd`
onward overwritten with the gap marker, and every character in between —
pre-existing gaps included — unchanged. -/
theorem C8_mask_frame (cons : List Char) (ws : ℕ) (r : Row) (trim : List Char)
    (bs be : ℕ) (obs obe : Option ℕ)
    (h : rowTrim cons ws r obs obe = Except.ok (trim, bs, be)) (j : ℕ) :
    trim[j]? = (r.seq[j]?).map
      (fun c => if j < (get_ends r.seq).1 + bs ∨ (get_ends r.seq).1 + be ≤ j
        then '-' else c) := by
  rw [rowTrim_ok h, maskRow_getElem?]

/-- Witness for C8: position 1 of the all-`'A'` row lies before
`rowStart + badStart = 2` and is masked to the gap marker. -/
theorem C8_mask_frame_witness :
    ("--AAAAAA--".toList)[1]? = (rowA.seq[1]?).map
      (fun c => if 1 < (get_ends rowA.seq).1 + 2 ∨ (get_ends rowA.seq).1 + 8 ≤ 1
        then '-' else c) :=
  C8_mask_frame consA 5 rowA ("--AAAAAA--".toList) 2 8 none none (by decide) 1

/-- C10: a surviving run of the three-pass pipeline returns exactly as many
rows as the input, in the same order, with the same taxon labels — trimming
never renames, reorders, adds, or removes rows of a surviving alignment. -/
theorem C10_rows_preserved (aln : Alignment) (ws : ℕ) (thr prop : ℚ) (out : Alignment)
    (h : trim_alignment aln ws thr prop = Except.ok (some out)) :
    out.map Row.id = aln.map Row.id := by
  unfold trim_alignment at h
  rcases h1 : stage_one_trimming (some aln) ws thr prop with e1 | s1
  all_goals rw [h1] at h
  all_goals simp only at h
  · exact Except.noConfusion h
  rcases h2 : stage_two_trimming s1 5 with e2 | s2
  all_goals rw [h2] at h
  all_goals simp only at h
  · exact Except.noConfusion h
  rcases s1 with _ | a1
  · rw [show stage_two_trimming none 5 = Except.error PyError.attributeError from rfl]
      at h2
    exact Except.noConfusion h2
  rcases s2 with _ | a2
  · rw [show stage_one_trimming none ws thr prop = Except.error PyError.typeError
      from rfl] at h
    exact Except.noConfusion h
  calc out.map Row.id
      = a2.map Row.id := stage_one_ids h
    _ = a1.map Row.id := (stage_two_ok h2).1
    _ = aln.map Row.id := stage_one_ids h1

/-- Witness for C10: the surviving trim of two labelled rows keeps both
labels in order. -/
theorem C10_rows_preserved_witness :
    ([mkRow "a" "AAAA", mkRow "b" "AAAA"] : Alignment).map Row.id =
      exSurvive.map Row.id :=
  C10_rows_preserved exSurvive 1 (Rat.divInt 3 4) (Rat.divInt 13 20)
    [mkRow "a" "AAAA", mkRow "b" "AAAA"] (by decide)

/-- C9: for every equal-width input alignment on which `trim_alignment`
returns a surviving (non-dropped) alignment, all output rows share one
length, and that length is at most the input width. -/
theorem C9_width_invariant (aln : Alignment) (ws : ℕ) (thr prop : ℚ) (w : ℕ)
    (out : Alignment) (hval : ∀ q ∈ aln, q.seq.length = w)
    (h : trim_alignment aln ws thr prop = Except.ok (some out)) :
    ∃ wOut, wOut ≤ w ∧ ∀ q ∈ out, q.seq.length = wOut := by
  unfold trim_alignment at h
  rcases h1 : stage_one_trimming (some aln) ws thr prop with e1 | s1
  all_goals rw [h1] at h
  all_goals simp only at h
  · exact Except.noConfusion h
  rcases h2 : stage_two_trimming s1 5 with e2 | s2
  all_goals rw [h2] at h
  all_goals simp only at h
  · exact Except.noConfusion h
  rcases s1 with _ | a1
  · rw [show stage_two_trimming none 5 = Except.error PyError.attributeError from rfl]
      at h2
    exact Except.noConfusion h2
  rcases s2 with _ | a2
  · rw [show stage_one_trimming none ws thr prop = Except.error PyError.typeError
      from rfl] at h
    exact Except.noConfusion h
  obtain ⟨w1, hw1, hval1⟩ := stage_one_lengths hval h1
  have hval2 : ∀ q ∈ a2, q.seq.length = w1 :=
    lengths_of_map_eq (stage_two_ok h2).2 hval1
  obtain ⟨w3, hw3, hval3⟩ := stage_one_lengths hval2 h
  exact ⟨w3, le_trans hw3 hw1, hval3⟩

/-- Witness for C9: the surviving trim of the 10-wide alignment has rows of
one common length bounded by 10 (the final width is 4). -/
theorem C9_width_invariant_witness :
    ∃ wOut, wOut ≤ 10 ∧
      ∀ q ∈ ([mkRow "a" "AAAA", mkRow "b" "AAAA"] : Alignment), q.seq.length = wOut :=
  C9_width_invariant exSurvive 1 (Rat.divInt 3 4) (Rat.divInt 13 20) 10
    [mkRow "a" "AAAA", mkRow "b" "AAAA"] (by decide) (by decide)

/-! ## Helper lemma for the consensus characterisation -/

theorem filter_eq_singleton {l : List Char} {c : Char} {p : Char → Bool}
    (hnd : l.Nodup) (hc : c ∈ l) (hp : p c = true)
    (honly : ∀ d ∈ l, d ≠ c → p d = false) : l.filter p = [c] := by
  induction l with
  | nil => cases hc
  | cons a t ih =>
    obtain ⟨hna, hndt⟩ := List.nodup_cons.mp hnd
    rcases List.mem_cons.mp hc with rfl | hct
    · rw [List.filter_cons_of_pos hp]
      have hnil : t.filter p = [] := by
        rw [List.filter_eq_nil_iff]
        intro d hd
        have hdc : d ≠ c := fun heq => hna (heq ▸ hd)
        simp [honly d (List.mem_cons_of_mem _ hd) hdc]
      rw [hnil]
    · have hac : a ≠ c := fun heq => hna (heq ▸ hct)
      rw [List.filter_cons_of_neg (by simp [honly a (List.mem_cons_self a t) hac])]
      exact ih hndt hct (fun d hd hdc => honly d (List.mem_cons_of_mem _ hd) hdc)

/-- C3 (amended): the consensus the source computes maps each column
through `consensusOut`; a column with a strictly most frequent character
among its non-gap, non-dot characters whose count reaches 0.7 of the
number of those characters (not of the row count, and with no case
normalisation) yields that character (the placeholder `'X'` being rendered
as the gap marker); every other column — no unique maximum, or a winner
below the 0.7 fraction of the non-gap total — yields the gap marker, so
ties are not broken by first-encounter order. -/
theorem C3_amended :
    (∀ aln : Alignment, alignment_consensus aln =
      (List.range (alignment_length aln)).map (fun n => consensusOut (column aln n))) ∧
    (∀ (col : List Char) (c : Char), c ∈ col.filter isAtom →
      (∀ d ∈ col.filter isAtom, d ≠ c →
        (col.filter isAtom).count d < (col.filter isAtom).count c) →
      7 * (col.filter isAtom).length ≤ 10 * (col.filter isAtom).count c →
      consensusOut col = if c = 'X' then '-' else c) ∧
    (∀ col : List Char,
      ¬(∃ c, c ∈ col.filter isAtom ∧
        (∀ d ∈ col.filter isAtom, d ≠ c →
          (col.filter isAtom).count d < (col.filter isAtom).count c) ∧
        7 * (col.filter isAtom).length ≤ 10 * (col.filter isAtom).count c) →
      consensusOut col = '-') := by
  refine ⟨?_, ?_, ?_⟩
  · intro aln
    unfold alignment_consensus dumb_consensus
    rw [List.map_map]
    rfl
  · intro col c hc hmax hthr
    have hms : ((col.filter isAtom).dedup.map
        (fun d => (col.filter isAtom).count d)).foldr max 0 =
        (col.filter isAtom).count c := by
      apply le_antisymm
      · apply foldr_max_le
        intro x hx
        obtain ⟨d, hd, rfl⟩ := List.mem_map.mp hx
        rcases eq_or_ne d c with rfl | hdc
        · exact le_refl _
        · exact le_of_lt (hmax d (List.mem_dedup.mp hd) hdc)
      · exact le_foldr_max (List.mem_map.mpr ⟨c, List.mem_dedup.mpr hc, rfl⟩)
    have hfil : (col.filter isAtom).dedup.filter
        (fun d => (col.filter isAtom).count d ==
          ((col.filter isAtom).dedup.map
            (fun d => (col.filter isAtom).count d)).foldr max 0) = [c] := by
      apply filter_eq_singleton (List.nodup_dedup _) (List.mem_dedup.mpr hc)
      · rw [hms]
        simp
      · intro d hd hdc
        rw [hms]
        simp [Nat.ne_of_lt (hmax d (List.mem_dedup.mp hd) hdc)]
    unfold consensusOut consensusChar
    rw [hfil]
    simp only
    rw [hms, if_pos hthr]
  · intro col hne
    rcases hfil : (col.filter isAtom).dedup.filter
        (fun d => (col.filter isAtom).count d ==
          ((col.filter isAtom).dedup.map
            (fun d => (col.filter isAtom).count d)).foldr max 0) with _ | ⟨c, rest⟩
    · unfold consensusOut consensusChar
      rw [hfil]
      simp
    · rcases rest with _ | ⟨d0, rest'⟩
      · -- a unique maximum: the threshold must fail, else the excluded
        -- existential would hold
        have hcmem : c ∈ (col.filter isAtom).dedup.filter
            (fun d => (col.filter isAtom).count d ==
              ((col.filter isAtom).dedup.map
                (fun d => (col.filter isAtom).count d)).foldr max 0) := by
          rw [hfil]
          simp
        obtain ⟨hcdedup, hcnt⟩ := List.mem_filter.mp hcmem
        have hcatoms : c ∈ col.filter isAtom := List.mem_dedup.mp hcdedup
        have hcntm : (col.filter isAtom).count c =
            ((col.filter isAtom).dedup.map
              (fun d => (col.filter isAtom).count d)).foldr max 0 := by
          simpa using hcnt
        have hstrict : ∀ d ∈ col.filter isAtom, d ≠ c →
            (col.filter isAtom).count d < (col.filter isAtom).count c := by
          intro d hd hdc
          have hle : (col.filter isAtom).count d ≤
              ((col.filter isAtom).dedup.map
                (fun d => (col.filter isAtom).count d)).foldr max 0 :=
            le_foldr_max (List.mem_map.mpr ⟨d, List.mem_dedup.mpr hd, rfl⟩)
          rcases Nat.lt_or_ge ((col.filter isAtom).count d)
              ((col.filter isAtom).count c) with hlt | hge
          · exact hlt
          · exfalso
            have hdeq : (col.filter isAtom).count d =
                ((col.filter isAtom).dedup.map
                  (fun d => (col.filter isAtom).count d)).foldr max 0 := by
              omega
            have hdfil : d ∈ (col.filter isAtom).dedup.filter
                (fun d => (col.filter isAtom).count d ==
                  ((col.filter isAtom).dedup.map
                    (fun d => (col.filter isAtom).count d)).foldr max 0) :=
              List.mem_filter.mpr ⟨List.mem_dedup.mpr hd, by simp [hdeq]⟩
            rw [hfil] at hdfil
            exact hdc (by simpa using hdfil)
        by_cases hthr : 7 * (col.filter isAtom).length ≤
            10 * ((col.filter isAtom).dedup.map
              (fun d => (col.filter isAtom).count d)).foldr max 0
        · exact absurd ⟨c, hcatoms, hstrict, by rw [hcntm]; exact hthr⟩ hne
        · unfold consensusOut consensusChar
          rw [hfil]
          simp only
          rw [if_neg hthr]
          simp
      · unfold consensusOut consensusChar
        rw [hfil]
        simp

/-- Witness for C3: the column `A, A, A, C` has the strict majority
character `'A'` at fraction 3/4 ≥ 0.7, and the consensus emits it. -/
theorem C3_amended_witness : consensusOut ['A', 'A', 'A', 'C'] = 'A' := by
  have := C3_amended.2.1 ['A', 'A', 'A', 'C'] 'A' (by decide) (by decide) (by decide)
  simpa using this

end Phyluce
